import Mathlib

/-!
Verification of the deterministic text-to-flowchart compiler embedded in
src/flowchart.py of the enterprisetools repository.  The functions
create_graphviz_flowchart, create_flowchart_display and create_html_fallback
are shallowly embedded below; machine strings are Lean strings, the mutable
while-loop of the graph builder becomes an explicit step function on a state
record, and the external renderer is abstracted as an optional rendering
function.
-/

namespace FlowchartSpec

/-- Substring test at the head of a character list (helper for pyIn). -/
def leadMatch : List Char → List Char → Bool
  | [], _ => true
  | _ :: _, [] => false
  | a :: as, b :: bs => a == b && leadMatch as bs

/-- Scan a character list for an occurrence of the pattern (helper for pyIn). -/
def scanMatch (pat : List Char) : List Char → Bool
  | [] => leadMatch pat []
  | c :: rest => leadMatch pat (c :: rest) || scanMatch pat rest

/-- Python substring membership test, the `pat in s` operator on str. -/
def pyIn (pat s : String) : Bool := scanMatch pat.data s.data

/-- Python str.lower restricted to the ASCII range, as used by the compiler. -/
def lowerString (s : String) : String := String.mk (s.data.map Char.toLower)

/-- Python str.strip: drop whitespace at both ends. -/
def pyStrip (s : List Char) : List Char :=
  ((s.dropWhile Char.isWhitespace).reverse.dropWhile Char.isWhitespace).reverse

/-- Split a character list on every occurrence of the two-character delimiter
used by the tokenizer, left to right, non-overlapping, as Python split. -/
def splitArrowAux : List Char → List Char → List (List Char)
  | [], acc => [acc.reverse]
  | '-' :: '>' :: rest, acc => acc.reverse :: splitArrowAux rest []
  | c :: rest, acc => splitArrowAux rest (c :: acc)

/-- Tokenizer of create_graphviz_flowchart and create_html_fallback:
steps = [step.strip() for step in instruction_text.split(arrow) if step.strip()]. -/
def tokenize (instruction_text : String) : List String :=
  ((splitArrowAux instruction_text.data []).map
    (fun cs => String.mk (pyStrip cs))).filter (fun step => step != "")

/-- Keyword list of the first branch of the classifier chain. -/
def startKw : List String := ["start", "begin"]

/-- Keyword list of the second branch of the classifier chain. -/
def endKw : List String := ["end", "finish", "complete"]

/-- Keyword list of the decision branch and of the sequential-edge guard. -/
def decisionKw : List String := ["if", "check", "decide", "is", "?"]

/-- Case-insensitive keyword containment:
any(keyword in step.lower() for keyword in ks). -/
def hasKw (ks : List String) (step : String) : Bool :=
  ks.any (fun k => pyIn k (lowerString step))

/-- Containment of the branch-marker keyword in the lowered step text. -/
def containsElse (step : String) : Bool := pyIn "else" (lowerString step)

/-- A step reaches the decision elif of the source chain exactly when this
classifier returns true: no StartEnd keyword, a decision keyword, no else. -/
def isDecisionStep (step : String) : Bool :=
  !hasKw startKw step && !hasKw endKw step &&
    (hasKw decisionKw step && !containsElse step)

/-- Guard of the shared connect code at line 223 of the source: the edge from
the previous node is drawn only when the step holds no decision keyword. -/
def seqGuard (step : String) : Bool := !hasKw decisionKw step

/-- A colour palette of the graph renderer, one row of color_schemes. -/
structure ColorScheme where
  start_end : String
  process : String
  decision : String
  text_color : String
  bg_color : String
deriving DecidableEq

/-- The palette stored under the default key. -/
def defaultColors : ColorScheme :=
  ⟨"#4CAF50", "#2196F3", "#FF9800", "white", "white"⟩

/-- The color_schemes table of create_graphviz_flowchart. -/
def color_schemes : List (String × ColorScheme) :=
  [("default", defaultColors),
   ("professional", ⟨"#1976D2", "#388E3C", "#F57C00", "white", "white"⟩),
   ("dark", ⟨"#424242", "#616161", "#795548", "white", "#2e2e2e"⟩),
   ("colorful", ⟨"#E91E63", "#9C27B0", "#FF5722", "white", "white"⟩)]

/-- Python dict lookup with the default entry as fallback:
color_schemes.get(color_scheme, color_schemes[default]). -/
def getScheme (name : String) : ColorScheme :=
  (color_schemes.lookup name).getD defaultColors

/-- A node of the emitted digraph: dot.node(id, label, shape, fillcolor,
fontcolor); identifiers keep only the numeric part of node_k. -/
structure Node where
  id : Nat
  label : String
  shape : String
  fillcolor : String
  fontcolor : String
deriving DecidableEq

/-- An edge of the emitted digraph: dot.edge(src, tgt, label, color). -/
structure Edge where
  src : Nat
  tgt : Nat
  label : Option String
  color : Option String
deriving DecidableEq

/-- The digraph assembled by one compilation. -/
structure Graph where
  bgcolor : String
  nodes : List Node
  edges : List Edge
deriving DecidableEq

/-- The mutable state of the builder loop: cursor i, node_counter, the
optional previous_node, and the node and edge emissions so far. -/
structure BState where
  i : Nat
  counter : Nat
  previous : Option Nat
  nodes : List Node
  edges : List Edge
deriving DecidableEq

/-- Node constructor shorthand. -/
def mkNode (id : Nat) (label shape fill font : String) : Node :=
  ⟨id, label, shape, fill, font⟩

/-- The edges contributed by the shared connect code at lines 222-224. -/
def seqEdges (previous : Option Nat) (current : Nat) (step : String) : List Edge :=
  match previous with
  | some p => if seqGuard step then [Edge.mk p current none none] else []
  | none => []

/-- Emission of a StartEnd or Process node together with the shared connect
code: the three non-decision node branches of the source loop body. -/
def emitSimple (colors : ColorScheme) (s : BState) (step shape fill : String) : BState :=
  ⟨s.i + 1, s.counter + 1, some s.counter,
    s.nodes ++ [mkNode s.counter step shape fill colors.text_color],
    s.edges ++ seqEdges s.previous s.counter step⟩

/-- The unguarded sequential edge of the decision branch (lines 177-179). -/
def decSeqEdges (previous : Option Nat) (current : Nat) : List Edge :=
  match previous with
  | some p => [Edge.mk p current none none]
  | none => []

/-- The forward scan of the decision branch for the first later step holding
the branch-marker keyword: for j in range(start, len(steps)). -/
def elseFindAux : List String → Nat → Option Nat
  | [], _ => none
  | step :: rest, j => if containsElse step then some j else elseFindAux rest (j + 1)

/-- Position of the first step at index at least start containing else. -/
def elseFind (steps : List String) (start : Nat) : Option Nat :=
  elseFindAux (List.drop start steps) start

/-- One iteration of the builder while-loop of create_graphviz_flowchart
(lines 156-227 of the source), acting on the loop state. -/
def buildStep (colors : ColorScheme) (steps : List String) (s : BState) : BState :=
  if h : s.i < steps.length then
    let step := steps.get ⟨s.i, h⟩
    let current := s.counter
    if hasKw startKw step then
      emitSimple colors s step "ellipse" colors.start_end
    else if hasKw endKw step then
      emitSimple colors s step "ellipse" colors.start_end
    else if hasKw decisionKw step && !containsElse step then
      let seqE : List Edge := decSeqEdges s.previous current
      if h2 : s.i + 1 < steps.length then
        let yes_step := steps.get ⟨s.i + 1, h2⟩
        let yes_id := current + 1
        match elseFind steps (s.i + 1) with
        | some j =>
          if h3 : j + 1 < steps.length then
            let no_step := steps.get ⟨j + 1, h3⟩
            ⟨s.i + 3, current + 3, some yes_id,
              s.nodes ++
                [mkNode current step "diamond" colors.decision colors.text_color,
                 mkNode yes_id yes_step "box" colors.process colors.text_color,
                 mkNode (current + 2) no_step "box" colors.process colors.text_color],
              s.edges ++ seqE ++
                [Edge.mk current yes_id (some "YES") (some "green"),
                 Edge.mk current (current + 2) (some "NO") (some "red")]⟩
          else
            ⟨s.i + 2, current + 2, some yes_id,
              s.nodes ++
                [mkNode current step "diamond" colors.decision colors.text_color,
                 mkNode yes_id yes_step "box" colors.process colors.text_color],
              s.edges ++ seqE ++
                [Edge.mk current yes_id (some "YES") (some "green")]⟩
        | none =>
            ⟨s.i + 2, current + 2, some yes_id,
              s.nodes ++
                [mkNode current step "diamond" colors.decision colors.text_color,
                 mkNode yes_id yes_step "box" colors.process colors.text_color],
              s.edges ++ seqE ++
                [Edge.mk current yes_id (some "YES") (some "green")]⟩
      else
        ⟨s.i + 1, current + 1, s.previous,
          s.nodes ++ [mkNode current step "diamond" colors.decision colors.text_color],
          s.edges ++ seqE⟩
    else if containsElse step then
      ⟨s.i + 1, current + 1, s.previous, s.nodes, s.edges⟩
    else
      emitSimple colors s step "box" colors.process
  else s

/-- The builder while-loop, driven by fuel; since every iteration advances the
cursor by at least one, fuel equal to the number of steps is exhaustive. -/
def buildLoop (colors : ColorScheme) (steps : List String) : Nat → BState → BState
  | 0, s => s
  | fuel + 1, s =>
    if s.i < steps.length then buildLoop colors steps fuel (buildStep colors steps s)
    else s

/-- The initial loop state: cursor 0, node_counter 0, no previous node. -/
def initState : BState := ⟨0, 0, none, [], []⟩

/-- create_graphviz_flowchart (lines 99-229): tokenize, fail on an empty step
sequence, otherwise run the builder loop and return the digraph. -/
def create_graphviz_flowchart (instruction_text : String) (color_scheme : String) :
    Option Graph × Option String :=
  let colors := getScheme color_scheme
  let steps := tokenize instruction_text
  if steps.isEmpty then (none, some "No steps found")
  else
    let final := buildLoop colors steps steps.length initState
    (some ⟨colors.bg_color, final.nodes, final.edges⟩, none)

/-- A colour palette of the markup fallback, one row of its own table. -/
structure FallbackColors where
  start_end : String
  process : String
  decision : String
deriving DecidableEq

/-- The default palette of the markup fallback. -/
def fallbackDefault : FallbackColors := ⟨"#4CAF50", "#2196F3", "#FF9800"⟩

/-- The color_schemes table local to create_html_fallback. -/
def fallback_color_schemes : List (String × FallbackColors) :=
  [("default", fallbackDefault),
   ("professional", ⟨"#1976D2", "#388E3C", "#F57C00"⟩),
   ("dark", ⟨"#424242", "#616161", "#795548"⟩),
   ("colorful", ⟨"#E91E63", "#9C27B0", "#FF5722"⟩)]

/-- Palette lookup of the markup fallback with default substitution. -/
def fbGetScheme (name : String) : FallbackColors :=
  (fallback_color_schemes.lookup name).getD fallbackDefault

/-- Inline style chosen per step by the markup fallback (lines 271-276). -/
def fbShapeStyle (colors : FallbackColors) (step : String) : String :=
  if hasKw ["start", "begin", "end", "finish"] step then
    "border-radius: 25px; background: " ++ colors.start_end
  else if hasKw ["if", "check", "decide"] step then
    "transform: rotate(45deg); background: " ++ colors.decision
  else
    "border-radius: 5px; background: " ++ colors.process

/-- The downward arrow marker emitted between consecutive fallback blocks. -/
def fbArrow : String :=
  "<div style=\x27font-size: 20px; color: #333;\x27>↓</div>"

/-- The heading fragment of the markup fallback. -/
def fbHeader : String :=
  "\n    <div style=\"background: white; padding: 20px; font-family: Arial;\">\n        <h3 style=\"text-align: center; color: #333;\">Flowchart (HTML Fallback)</h3>\n        <p style=\"text-align: center; color: #666; margin-bottom: 20px;\">\n            Install Graphviz for better visualization: <code>pip install graphviz</code>\n        </p>\n    "

/-- One step block of the markup fallback, with its optional arrow marker. -/
def fbStepDiv (colors : FallbackColors) (step arrow : String) : String :=
  "\n        <div style=\"text-align: center; margin: 15px 0;\">\n            <div style=\"display: inline-block; padding: 10px 20px; color: white; font-weight: bold; "
    ++ fbShapeStyle colors step
    ++ "\">\n                " ++ step ++ "\n            </div>\n            "
    ++ arrow ++ "\n        </div>\n        "

/-- The step blocks of the markup fallback in sequence order; every block but
the last is followed by the arrow marker. -/
def fbBody (colors : FallbackColors) : List String → String
  | [] => ""
  | [step] => fbStepDiv colors step ""
  | step :: next :: rest => fbStepDiv colors step fbArrow ++ fbBody colors (next :: rest)

/-- create_html_fallback (lines 249-288): linear markup rendering of the
tokenized steps, with no branch handling. -/
def create_html_fallback (instruction_text : String) (color_scheme : String) : String :=
  let colors := fbGetScheme color_scheme
  let steps := tokenize instruction_text
  fbHeader ++ fbBody colors steps ++ "</div>"

/-- create_flowchart_display (lines 231-247): try the graph compiler first;
when it yields a graph and the external renderer is available and succeeds
(modelled by the optional render function) return the rendered image with tag
graphviz, otherwise fall back to the markup renderer with tag html.  The
error component of the compiler result is not consulted. -/
def create_flowchart_display (render : Option (Graph → String))
    (instruction_text : String) (color_scheme : String) : String × String :=
  match (create_graphviz_flowchart instruction_text color_scheme).1 with
  | some g =>
    match render with
    | some r => (r g, "graphviz")
    | none => (create_html_fallback instruction_text color_scheme, "html")
  | none => (create_html_fallback instruction_text color_scheme, "html")

/-- The digraph compiled from the instruction of the specification example
Start->Check if valid->Yes do X->Else do Y->End with the default palette. -/
def gC1 : Graph :=
  ⟨"white",
   [mkNode 0 "Start" "ellipse" "#4CAF50" "white",
    mkNode 1 "Check if valid" "diamond" "#FF9800" "white",
    mkNode 2 "Yes do X" "box" "#2196F3" "white",
    mkNode 3 "End" "box" "#2196F3" "white",
    mkNode 4 "End" "ellipse" "#4CAF50" "white"],
   [Edge.mk 0 1 none none,
    Edge.mk 1 2 (some "YES") (some "green"),
    Edge.mk 1 3 (some "NO") (some "red"),
    Edge.mk 2 4 none none]⟩

/-- The digraph compiled from Start->Do x with the default palette. -/
def gC3w : Graph :=
  ⟨"white",
   [mkNode 0 "Start" "ellipse" "#4CAF50" "white",
    mkNode 1 "Do x" "box" "#2196F3" "white"],
   [Edge.mk 0 1 none none]⟩

/-- Number of edges leaving the node with the given identifier. -/
def outCount (es : List Edge) (id : Nat) : Nat :=
  (es.filter (fun e => e.src = id)).length

/-- Number of edges leaving the given node that carry the given label. -/
def labCount (es : List Edge) (id : Nat) (l : String) : Nat :=
  (es.filter (fun e => e.src = id ∧ e.label = some l)).length

/-- Invariant of the builder loop state tying the source behaviour to the
claims: identifier freshness, decision nodes have bounded labelled
out-degree, YES and NO edges point at box nodes with the process fill,
NO-branch nodes have no outgoing edge, and all but the first emitted node
have an incoming edge unless the line-223 guard suppressed it. -/
structure Inv (colors : ColorScheme) (s : BState) : Prop where
  nodes_lt : ∀ n ∈ s.nodes, n.id < s.counter
  src_lt : ∀ e ∈ s.edges, e.src < s.counter
  tgt_lt : ∀ e ∈ s.edges, e.tgt < s.counter
  prev_lt : ∀ p, s.previous = some p → p < s.counter
  prev_nd : ∀ p, s.previous = some p → ∀ n ∈ s.nodes, n.id = p → n.shape ≠ "diamond"
  prev_nnt : ∀ p, s.previous = some p → ∀ e ∈ s.edges, e.label = some "NO" → e.tgt ≠ p
  dout : ∀ n ∈ s.nodes, n.shape = "diamond" →
    outCount s.edges n.id ≤ 2 ∧ labCount s.edges n.id "YES" ≤ 1 ∧
      labCount s.edges n.id "NO" ≤ 1
  btb : ∀ e ∈ s.edges, (e.label = some "YES" ∨ e.label = some "NO") →
    ∀ n ∈ s.nodes, n.id = e.tgt → n.shape = "box" ∧ n.fillcolor = colors.process
  nno : ∀ e ∈ s.edges, e.label = some "NO" → ∀ e2 ∈ s.edges, e2.src ≠ e.tgt
  ti : ∀ n ∈ s.nodes.tail, (∃ e ∈ s.edges, e.tgt = n.id) ∨
    (n.shape = "ellipse" ∧ hasKw decisionKw n.label = true)

/-- Auxiliary invariant: before any node is emitted there is no previous
node; it can only break on a terminal decision step, which ends the loop. -/
def Qinv (s : BState) : Prop := s.previous = none → s.nodes = []

theorem outCount_nil (id : Nat) : outCount [] id = 0 := rfl

theorem outCount_cons (e : Edge) (es : List Edge) (id : Nat) :
    outCount (e :: es) id = (if e.src = id then 1 else 0) + outCount es id := by
  simp only [outCount, List.filter_cons, decide_eq_true_eq]
  by_cases h : e.src = id
  · rw [if_pos h, if_pos h, List.length_cons]; omega
  · rw [if_neg h, if_neg h, Nat.zero_add]

theorem outCount_append (es fs : List Edge) (id : Nat) :
    outCount (es ++ fs) id = outCount es id + outCount fs id := by
  simp [outCount, List.filter_append]

theorem outCount_zero (es : List Edge) (id : Nat) (h : ∀ e ∈ es, e.src ≠ id) :
    outCount es id = 0 := by
  induction es with
  | nil => rfl
  | cons e es ih =>
    rw [outCount_cons, if_neg (h e (List.mem_cons_self e es)), Nat.zero_add]
    exact ih (fun x hx => h x (List.mem_cons_of_mem e hx))

theorem labCount_nil (id : Nat) (l : String) : labCount [] id l = 0 := rfl

theorem labCount_cons (e : Edge) (es : List Edge) (id : Nat) (l : String) :
    labCount (e :: es) id l =
      (if e.src = id ∧ e.label = some l then 1 else 0) + labCount es id l := by
  simp only [labCount, List.filter_cons, decide_eq_true_eq]
  by_cases h : e.src = id ∧ e.label = some l
  · rw [if_pos (by simpa using h), if_pos h, List.length_cons]; omega
  · rw [if_neg (by simpa using h), if_neg h, Nat.zero_add]

theorem labCount_append (es fs : List Edge) (id : Nat) (l : String) :
    labCount (es ++ fs) id l = labCount es id l + labCount fs id l := by
  simp [labCount, List.filter_append]

theorem labCount_zero (es : List Edge) (id : Nat) (l : String)
    (h : ∀ e ∈ es, e.src ≠ id ∨ e.label ≠ some l) : labCount es id l = 0 := by
  induction es with
  | nil => rfl
  | cons e es ih =>
    rw [labCount_cons, if_neg (by rcases h e (List.mem_cons_self e es) with h1 | h1 <;> tauto),
      Nat.zero_add]
    exact ih (fun x hx => h x (List.mem_cons_of_mem e hx))

theorem seqEdges_mem (prev : Option Nat) (c : Nat) (step : String) :
    ∀ e ∈ seqEdges prev c step,
      e.label = none ∧ e.color = none ∧ e.tgt = c ∧ prev = some e.src := by
  cases prev with
  | none => simp [seqEdges]
  | some p =>
    by_cases hg : seqGuard step
    · simp [seqEdges, hg]
    · simp [seqEdges, hg]

theorem decSeqEdges_mem (prev : Option Nat) (c : Nat) :
    ∀ e ∈ decSeqEdges prev c,
      e.label = none ∧ e.color = none ∧ e.tgt = c ∧ prev = some e.src := by
  cases prev with
  | none => simp [decSeqEdges]
  | some p => simp [decSeqEdges]


theorem inv_init (colors : ColorScheme) : Inv colors initState := by
  constructor <;> simp [initState]

theorem inv_emitSimple (colors : ColorScheme) (s : BState) (step shape fill : String)
    (hI : Inv colors s) (hQ : Qinv s) (hsh : shape ≠ "diamond")
    (hor : seqGuard step = true ∨ (shape = "ellipse" ∧ hasKw decisionKw step = true)) :
    Inv colors (emitSimple colors s step shape fill) ∧
      Qinv (emitSimple colors s step shape fill) := by
  unfold emitSimple
  constructor
  · constructor
    · intro n hn
      rcases List.mem_append.1 hn with hn | hn
      · exact Nat.lt_succ_of_lt (hI.nodes_lt n hn)
      · rcases List.mem_singleton.1 hn with rfl
        exact Nat.lt_succ_self _
    · intro e he
      rcases List.mem_append.1 he with he | he
      · exact Nat.lt_succ_of_lt (hI.src_lt e he)
      · obtain ⟨-, -, -, hp⟩ := seqEdges_mem _ _ _ e he
        exact Nat.lt_succ_of_lt (hI.prev_lt e.src hp)
    · intro e he
      rcases List.mem_append.1 he with he | he
      · exact Nat.lt_succ_of_lt (hI.tgt_lt e he)
      · obtain ⟨-, -, ht, -⟩ := seqEdges_mem _ _ _ e he
        rw [ht]; exact Nat.lt_succ_self _
    · intro p hp
      cases hp
      exact Nat.lt_succ_self _
    · intro p hp n hn hid
      cases hp
      rcases List.mem_append.1 hn with hn | hn
      · exact absurd hid (Nat.ne_of_lt (hI.nodes_lt n hn))
      · rcases List.mem_singleton.1 hn with rfl
        exact hsh
    · intro p hp e he hlab
      cases hp
      rcases List.mem_append.1 he with he | he
      · exact Nat.ne_of_lt (hI.tgt_lt e he)
      · obtain ⟨hl, -, -, -⟩ := seqEdges_mem _ _ _ e he
        rw [hl] at hlab
        exact absurd hlab (by simp)
    · intro n hn hdia
      rcases List.mem_append.1 hn with hn | hn
      · have hz : outCount (seqEdges s.previous s.counter step) n.id = 0 := by
          refine outCount_zero _ _ (fun e he heq => ?_)
          obtain ⟨-, -, -, hp⟩ := seqEdges_mem _ _ _ e he
          exact hI.prev_nd e.src hp n hn heq.symm hdia
        have hzy : labCount (seqEdges s.previous s.counter step) n.id "YES" = 0 := by
          refine labCount_zero _ _ _ (fun e he => ?_)
          obtain ⟨hl, -, -, -⟩ := seqEdges_mem _ _ _ e he
          exact Or.inr (by rw [hl]; simp)
        have hzn : labCount (seqEdges s.previous s.counter step) n.id "NO" = 0 := by
          refine labCount_zero _ _ _ (fun e he => ?_)
          obtain ⟨hl, -, -, -⟩ := seqEdges_mem _ _ _ e he
          exact Or.inr (by rw [hl]; simp)
        obtain ⟨h1, h2, h3⟩ := hI.dout n hn hdia
        rw [outCount_append, labCount_append, labCount_append, hz, hzy, hzn]
        omega
      · rcases List.mem_singleton.1 hn with rfl
        exact absurd hdia hsh
    · intro e he hl n hn hid
      rcases List.mem_append.1 he with he | he
      · rcases List.mem_append.1 hn with hn | hn
        · exact hI.btb e he hl n hn hid
        · rcases List.mem_singleton.1 hn with rfl
          exact absurd hid.symm (Nat.ne_of_lt (hI.tgt_lt e he))
      · obtain ⟨hlabel, -, -, -⟩ := seqEdges_mem _ _ _ e he
        rw [hlabel] at hl
        rcases hl with hl | hl <;> exact absurd hl (by simp)
    · intro e he hl e2 he2
      rcases List.mem_append.1 he with he | he
      · rcases List.mem_append.1 he2 with he2 | he2
        · exact hI.nno e he hl e2 he2
        · obtain ⟨-, -, -, hp⟩ := seqEdges_mem _ _ _ e2 he2
          exact fun heq => hI.prev_nnt e2.src hp e he hl heq.symm
      · obtain ⟨hlabel, -, -, -⟩ := seqEdges_mem _ _ _ e he
        rw [hlabel] at hl
        exact absurd hl (by simp)
    · intro n hn
      rcases hsn : s.nodes with _ | ⟨h0, t⟩
      · rw [hsn] at hn
        simp at hn
      · rw [hsn, List.cons_append, List.tail_cons] at hn
        rcases List.mem_append.1 hn with hn | hn
        · have hold := hI.ti n (by rw [hsn]; exact hn)
          rcases hold with ⟨e, he, hte⟩ | hex
          · exact Or.inl ⟨e, List.mem_append_left _ he, hte⟩
          · exact Or.inr hex
        · rcases List.mem_singleton.1 hn with rfl
          rcases hp : s.previous with _ | p
          · exact absurd hsn (by rw [hQ hp]; simp)
          · rcases hg : seqGuard step with _ | _
            · rcases hor with hor | hor
              · rw [hor] at hg; cases hg
              · exact Or.inr ⟨hor.1, hor.2⟩
            · refine Or.inl ⟨Edge.mk p s.counter none none, List.mem_append_right _ ?_, rfl⟩
              simp [seqEdges, hp, hg]
  · intro hp
    exact absurd hp (by simp)

theorem inv_decision_term (colors : ColorScheme) (s : BState) (step : String)
    (hI : Inv colors s) (hQ : Qinv s) :
    Inv colors ⟨s.i + 1, s.counter + 1, s.previous,
      s.nodes ++ [mkNode s.counter step "diamond" colors.decision colors.text_color],
      s.edges ++ decSeqEdges s.previous s.counter⟩ := by
  constructor
  · intro n hn
    rcases List.mem_append.1 hn with hn | hn
    · exact Nat.lt_succ_of_lt (hI.nodes_lt n hn)
    · rcases List.mem_singleton.1 hn with rfl
      exact Nat.lt_succ_self _
  · intro e he
    rcases List.mem_append.1 he with he | he
    · exact Nat.lt_succ_of_lt (hI.src_lt e he)
    · obtain ⟨-, -, -, hp⟩ := decSeqEdges_mem _ _ e he
      exact Nat.lt_succ_of_lt (hI.prev_lt e.src hp)
  · intro e he
    rcases List.mem_append.1 he with he | he
    · exact Nat.lt_succ_of_lt (hI.tgt_lt e he)
    · obtain ⟨-, -, ht, -⟩ := decSeqEdges_mem _ _ e he
      rw [ht]; exact Nat.lt_succ_self _
  · intro p hp
    exact Nat.lt_succ_of_lt (hI.prev_lt p hp)
  · intro p hp n hn hid
    rcases List.mem_append.1 hn with hn | hn
    · exact hI.prev_nd p hp n hn hid
    · rcases List.mem_singleton.1 hn with rfl
      exact absurd hid (Nat.ne_of_gt (hI.prev_lt p hp))
  · intro p hp e he hlab
    rcases List.mem_append.1 he with he | he
    · exact hI.prev_nnt p hp e he hlab
    · obtain ⟨hl, -, -, -⟩ := decSeqEdges_mem _ _ e he
      rw [hl] at hlab
      exact absurd hlab (by simp)
  · intro n hn hdia
    rcases List.mem_append.1 hn with hn | hn
    · have hz : outCount (decSeqEdges s.previous s.counter) n.id = 0 := by
        refine outCount_zero _ _ (fun e he heq => ?_)
        obtain ⟨-, -, -, hp⟩ := decSeqEdges_mem _ _ e he
        exact hI.prev_nd e.src hp n hn heq.symm hdia
      have hzy : labCount (decSeqEdges s.previous s.counter) n.id "YES" = 0 := by
        refine labCount_zero _ _ _ (fun e he => ?_)
        obtain ⟨hl, -, -, -⟩ := decSeqEdges_mem _ _ e he
        exact Or.inr (by rw [hl]; simp)
      have hzn : labCount (decSeqEdges s.previous s.counter) n.id "NO" = 0 := by
        refine labCount_zero _ _ _ (fun e he => ?_)
        obtain ⟨hl, -, -, -⟩ := decSeqEdges_mem _ _ e he
        exact Or.inr (by rw [hl]; simp)
      obtain ⟨h1, h2, h3⟩ := hI.dout n hn hdia
      rw [outCount_append, labCount_append, labCount_append, hz, hzy, hzn]
      omega
    · rcases List.mem_singleton.1 hn with rfl
      dsimp only [mkNode]
      have hz : outCount s.edges s.counter = 0 :=
        outCount_zero _ _ (fun e he => Nat.ne_of_lt (hI.src_lt e he))
      have hz2 : outCount (decSeqEdges s.previous s.counter) s.counter = 0 := by
        refine outCount_zero _ _ (fun e he => ?_)
        obtain ⟨-, -, -, hp⟩ := decSeqEdges_mem _ _ e he
        exact Nat.ne_of_lt (hI.prev_lt e.src hp)
      have hzy : labCount s.edges s.counter "YES" = 0 :=
        labCount_zero _ _ _ (fun e he => Or.inl (Nat.ne_of_lt (hI.src_lt e he)))
      have hzn : labCount s.edges s.counter "NO" = 0 :=
        labCount_zero _ _ _ (fun e he => Or.inl (Nat.ne_of_lt (hI.src_lt e he)))
      have hzy2 : labCount (decSeqEdges s.previous s.counter) s.counter "YES" = 0 := by
        refine labCount_zero _ _ _ (fun e he => ?_)
        obtain ⟨hl, -, -, -⟩ := decSeqEdges_mem _ _ e he
        exact Or.inr (by rw [hl]; simp)
      have hzn2 : labCount (decSeqEdges s.previous s.counter) s.counter "NO" = 0 := by
        refine labCount_zero _ _ _ (fun e he => ?_)
        obtain ⟨hl, -, -, -⟩ := decSeqEdges_mem _ _ e he
        exact Or.inr (by rw [hl]; simp)
      rw [outCount_append, labCount_append, labCount_append, hz, hz2, hzy, hzn, hzy2, hzn2]
      omega
  · intro e he hl n hn hid
    rcases List.mem_append.1 he with he | he
    · rcases List.mem_append.1 hn with hn | hn
      · exact hI.btb e he hl n hn hid
      · rcases List.mem_singleton.1 hn with rfl
        exact absurd hid.symm (Nat.ne_of_lt (hI.tgt_lt e he))
    · obtain ⟨hlabel, -, -, -⟩ := decSeqEdges_mem _ _ e he
      rw [hlabel] at hl
      rcases hl with hl | hl <;> exact absurd hl (by simp)
  · intro e he hl e2 he2
    rcases List.mem_append.1 he with he | he
    · rcases List.mem_append.1 he2 with he2 | he2
      · exact hI.nno e he hl e2 he2
      · obtain ⟨-, -, -, hp⟩ := decSeqEdges_mem _ _ e2 he2
        exact fun heq => hI.prev_nnt e2.src hp e he hl heq.symm
    · obtain ⟨hlabel, -, -, -⟩ := decSeqEdges_mem _ _ e he
      rw [hlabel] at hl
      exact absurd hl (by simp)
  · intro n hn
    rcases hsn : s.nodes with _ | ⟨h0, t⟩
    · rw [hsn] at hn
      simp at hn
    · rw [hsn, List.cons_append, List.tail_cons] at hn
      rcases List.mem_append.1 hn with hn | hn
      · have hold := hI.ti n (by rw [hsn]; exact hn)
        rcases hold with ⟨e, he, hte⟩ | hex
        · exact Or.inl ⟨e, List.mem_append_left _ he, hte⟩
        · exact Or.inr hex
      · rcases List.mem_singleton.1 hn with rfl
        rcases hp : s.previous with _ | p
        · exact absurd hsn (by rw [hQ hp]; simp)
        · refine Or.inl ⟨Edge.mk p s.counter none none, List.mem_append_right _ ?_, rfl⟩
          simp [decSeqEdges, hp]

theorem inv_decision_yes (colors : ColorScheme) (s : BState) (step ys : String)
    (hI : Inv colors s) (hQ : Qinv s) :
    Inv colors ⟨s.i + 2, s.counter + 2, some (s.counter + 1),
      s.nodes ++
        [mkNode s.counter step "diamond" colors.decision colors.text_color,
         mkNode (s.counter + 1) ys "box" colors.process colors.text_color],
      s.edges ++ decSeqEdges s.previous s.counter ++
        [Edge.mk s.counter (s.counter + 1) (some "YES") (some "green")]⟩ := by
  have memN : ∀ n : Node,
      n ∈ [mkNode s.counter step "diamond" colors.decision colors.text_color,
           mkNode (s.counter + 1) ys "box" colors.process colors.text_color] →
      n = mkNode s.counter step "diamond" colors.decision colors.text_color ∨
      n = mkNode (s.counter + 1) ys "box" colors.process colors.text_color := by
    intro n hn
    rcases List.mem_cons.1 hn with rfl | hn
    · exact Or.inl rfl
    · exact Or.inr (List.mem_singleton.1 hn)
  constructor <;> dsimp only
  · intro n hn
    rcases List.mem_append.1 hn with hn | hn
    · have := hI.nodes_lt n hn; omega
    · rcases memN n hn with rfl | rfl <;> simp [mkNode]
  · intro e he
    rcases List.mem_append.1 he with he | he
    · rcases List.mem_append.1 he with he | he
      · have := hI.src_lt e he; omega
      · obtain ⟨-, -, -, hp⟩ := decSeqEdges_mem _ _ e he
        have := hI.prev_lt e.src hp; omega
    · rcases List.mem_singleton.1 he with rfl
      simp
  · intro e he
    rcases List.mem_append.1 he with he | he
    · rcases List.mem_append.1 he with he | he
      · have := hI.tgt_lt e he; omega
      · obtain ⟨-, -, ht, -⟩ := decSeqEdges_mem _ _ e he
        rw [ht]; omega
    · rcases List.mem_singleton.1 he with rfl
      simp
  · intro p hp
    cases hp; omega
  · intro p hp n hn hid
    cases hp
    rcases List.mem_append.1 hn with hn | hn
    · have := hI.nodes_lt n hn; omega
    · rcases memN n hn with rfl | rfl
      · simp [mkNode] at hid
      · simp [mkNode]
  · intro p hp e he hlab
    cases hp
    rcases List.mem_append.1 he with he | he
    · rcases List.mem_append.1 he with he | he
      · have := hI.tgt_lt e he; omega
      · obtain ⟨hl, -, -, -⟩ := decSeqEdges_mem _ _ e he
        rw [hl] at hlab; exact absurd hlab (by simp)
    · rcases List.mem_singleton.1 he with rfl
      simp at hlab
  · intro n hn hdia
    rcases List.mem_append.1 hn with hn | hn
    · have hz : outCount (decSeqEdges s.previous s.counter) n.id = 0 := by
        refine outCount_zero _ _ (fun e he heq => ?_)
        obtain ⟨-, -, -, hp⟩ := decSeqEdges_mem _ _ e he
        exact hI.prev_nd e.src hp n hn heq.symm hdia
      have hzy : labCount (decSeqEdges s.previous s.counter) n.id "YES" = 0 := by
        refine labCount_zero _ _ _ (fun e he => ?_)
        obtain ⟨hl, -, -, -⟩ := decSeqEdges_mem _ _ e he
        exact Or.inr (by rw [hl]; simp)
      have hzn : labCount (decSeqEdges s.previous s.counter) n.id "NO" = 0 := by
        refine labCount_zero _ _ _ (fun e he => ?_)
        obtain ⟨hl, -, -, -⟩ := decSeqEdges_mem _ _ e he
        exact Or.inr (by rw [hl]; simp)
      have hlt := hI.nodes_lt n hn
      have hy : outCount [Edge.mk s.counter (s.counter + 1) (some "YES") (some "green")] n.id = 0 := by
        rw [outCount_cons, outCount_nil, if_neg (by dsimp; omega)]
      have hyy : labCount [Edge.mk s.counter (s.counter + 1) (some "YES") (some "green")] n.id "YES" = 0 := by
        rw [labCount_cons, labCount_nil, if_neg (by dsimp; omega)]
      have hyn : labCount [Edge.mk s.counter (s.counter + 1) (some "YES") (some "green")] n.id "NO" = 0 := by
        rw [labCount_cons, labCount_nil, if_neg (by dsimp; omega)]
      obtain ⟨h1, h2, h3⟩ := hI.dout n hn hdia
      rw [outCount_append, outCount_append, labCount_append, labCount_append,
        labCount_append, labCount_append, hz, hzy, hzn, hy, hyy, hyn]
      omega
    · rcases memN n hn with rfl | rfl
      · dsimp only [mkNode]
        have hz : outCount s.edges s.counter = 0 :=
          outCount_zero _ _ (fun e he => Nat.ne_of_lt (hI.src_lt e he))
        have hz2 : outCount (decSeqEdges s.previous s.counter) s.counter = 0 := by
          refine outCount_zero _ _ (fun e he => ?_)
          obtain ⟨-, -, -, hp⟩ := decSeqEdges_mem _ _ e he
          exact Nat.ne_of_lt (hI.prev_lt e.src hp)
        have hzy : labCount s.edges s.counter "YES" = 0 :=
          labCount_zero _ _ _ (fun e he => Or.inl (Nat.ne_of_lt (hI.src_lt e he)))
        have hzn : labCount s.edges s.counter "NO" = 0 :=
          labCount_zero _ _ _ (fun e he => Or.inl (Nat.ne_of_lt (hI.src_lt e he)))
        have hzy2 : labCount (decSeqEdges s.previous s.counter) s.counter "YES" = 0 := by
          refine labCount_zero _ _ _ (fun e he => ?_)
          obtain ⟨hl, -, -, -⟩ := decSeqEdges_mem _ _ e he
          exact Or.inr (by rw [hl]; simp)
        have hzn2 : labCount (decSeqEdges s.previous s.counter) s.counter "NO" = 0 := by
          refine labCount_zero _ _ _ (fun e he => ?_)
          obtain ⟨hl, -, -, -⟩ := decSeqEdges_mem _ _ e he
          exact Or.inr (by rw [hl]; simp)
        rw [outCount_append, outCount_append, labCount_append, labCount_append,
          labCount_append, labCount_append, hz, hz2, hzy, hzn, hzy2, hzn2,
          outCount_cons, outCount_nil, if_pos rfl,
          labCount_cons, labCount_nil, if_pos ⟨rfl, rfl⟩,
          labCount_cons, labCount_nil, if_neg (by simp)]
        omega
      · simp [mkNode] at hdia
  · intro e he hl n hn hid
    rcases List.mem_append.1 he with he | he
    · rcases List.mem_append.1 he with he | he
      · rcases List.mem_append.1 hn with hn | hn
        · exact hI.btb e he hl n hn hid
        · have := hI.tgt_lt e he
          rcases memN n hn with rfl | rfl <;> simp [mkNode] at hid <;> omega
      · obtain ⟨hlabel, -, -, -⟩ := decSeqEdges_mem _ _ e he
        rw [hlabel] at hl
        rcases hl with hl | hl <;> exact absurd hl (by simp)
    · rcases List.mem_singleton.1 he with rfl
      rcases List.mem_append.1 hn with hn | hn
      · have := hI.nodes_lt n hn
        dsimp at hid
        omega
      · rcases memN n hn with rfl | rfl
        · simp [mkNode] at hid
        · simp [mkNode]
  · intro e he hl e2 he2
    rcases List.mem_append.1 he with he | he
    · rcases List.mem_append.1 he with he | he
      · rcases List.mem_append.1 he2 with he2 | he2
        · rcases List.mem_append.1 he2 with he2 | he2
          · exact hI.nno e he hl e2 he2
          · obtain ⟨-, -, -, hp⟩ := decSeqEdges_mem _ _ e2 he2
            exact fun heq => hI.prev_nnt e2.src hp e he hl heq.symm
        · rcases List.mem_singleton.1 he2 with rfl
          have := hI.tgt_lt e he
          dsimp
          omega
      · obtain ⟨hlabel, -, -, -⟩ := decSeqEdges_mem _ _ e he
        rw [hlabel] at hl
        exact absurd hl (by simp)
    · rcases List.mem_singleton.1 he with rfl
      simp at hl
  · intro n hn
    rcases hsn : s.nodes with _ | ⟨h0, t⟩
    · rw [hsn] at hn
      simp only [List.nil_append, List.tail_cons] at hn
      rcases List.mem_singleton.1 hn with rfl
      refine Or.inl ⟨Edge.mk s.counter (s.counter + 1) (some "YES") (some "green"),
        List.mem_append_right _ (List.mem_singleton.2 rfl), rfl⟩
    · rw [hsn, List.cons_append, List.tail_cons] at hn
      rcases List.mem_append.1 hn with hn | hn
      · have hold := hI.ti n (by rw [hsn]; exact hn)
        rcases hold with ⟨e, he, hte⟩ | hex
        · exact Or.inl ⟨e, List.mem_append_left _ (List.mem_append_left _ he), hte⟩
        · exact Or.inr hex
      · rcases memN n hn with rfl | rfl
        · rcases hp : s.previous with _ | p
          · exact absurd hsn (by rw [hQ hp]; simp)
          · refine Or.inl ⟨Edge.mk p s.counter none none,
              List.mem_append_left _ (List.mem_append_right _ ?_), rfl⟩
            simp [decSeqEdges, hp]
        · exact Or.inl ⟨Edge.mk s.counter (s.counter + 1) (some "YES") (some "green"),
            List.mem_append_right _ (List.mem_singleton.2 rfl), rfl⟩

theorem inv_decision_yesno (colors : ColorScheme) (s : BState) (step ys ns : String)
    (hI : Inv colors s) (hQ : Qinv s) :
    Inv colors ⟨s.i + 3, s.counter + 3, some (s.counter + 1),
      s.nodes ++
        [mkNode s.counter step "diamond" colors.decision colors.text_color,
         mkNode (s.counter + 1) ys "box" colors.process colors.text_color,
         mkNode (s.counter + 2) ns "box" colors.process colors.text_color],
      s.edges ++ decSeqEdges s.previous s.counter ++
        [Edge.mk s.counter (s.counter + 1) (some "YES") (some "green"),
         Edge.mk s.counter (s.counter + 2) (some "NO") (some "red")]⟩ := by
  have memN : ∀ n : Node,
      n ∈ [mkNode s.counter step "diamond" colors.decision colors.text_color,
           mkNode (s.counter + 1) ys "box" colors.process colors.text_color,
           mkNode (s.counter + 2) ns "box" colors.process colors.text_color] →
      n = mkNode s.counter step "diamond" colors.decision colors.text_color ∨
      n = mkNode (s.counter + 1) ys "box" colors.process colors.text_color ∨
      n = mkNode (s.counter + 2) ns "box" colors.process colors.text_color := by
    intro n hn
    rcases List.mem_cons.1 hn with rfl | hn
    · exact Or.inl rfl
    · rcases List.mem_cons.1 hn with rfl | hn
      · exact Or.inr (Or.inl rfl)
      · exact Or.inr (Or.inr (List.mem_singleton.1 hn))
  have memE : ∀ e : Edge,
      e ∈ [Edge.mk s.counter (s.counter + 1) (some "YES") (some "green"),
           Edge.mk s.counter (s.counter + 2) (some "NO") (some "red")] →
      e = Edge.mk s.counter (s.counter + 1) (some "YES") (some "green") ∨
      e = Edge.mk s.counter (s.counter + 2) (some "NO") (some "red") := by
    intro e he
    rcases List.mem_cons.1 he with rfl | he
    · exact Or.inl rfl
    · exact Or.inr (List.mem_singleton.1 he)
  constructor <;> dsimp only
  · intro n hn
    rcases List.mem_append.1 hn with hn | hn
    · have := hI.nodes_lt n hn; omega
    · rcases memN n hn with rfl | rfl | rfl <;> simp [mkNode]
  · intro e he
    rcases List.mem_append.1 he with he | he
    · rcases List.mem_append.1 he with he | he
      · have := hI.src_lt e he; omega
      · obtain ⟨-, -, -, hp⟩ := decSeqEdges_mem _ _ e he
        have := hI.prev_lt e.src hp; omega
    · rcases memE e he with rfl | rfl <;> simp
  · intro e he
    rcases List.mem_append.1 he with he | he
    · rcases List.mem_append.1 he with he | he
      · have := hI.tgt_lt e he; omega
      · obtain ⟨-, -, ht, -⟩ := decSeqEdges_mem _ _ e he
        rw [ht]; omega
    · rcases memE e he with rfl | rfl <;> simp
  · intro p hp
    cases hp; omega
  · intro p hp n hn hid
    cases hp
    rcases List.mem_append.1 hn with hn | hn
    · have := hI.nodes_lt n hn; omega
    · rcases memN n hn with rfl | rfl | rfl
      · simp [mkNode] at hid
      · simp [mkNode]
      · simp [mkNode] at hid
  · intro p hp e he hlab
    cases hp
    rcases List.mem_append.1 he with he | he
    · rcases List.mem_append.1 he with he | he
      · have := hI.tgt_lt e he; omega
      · obtain ⟨hl, -, -, -⟩ := decSeqEdges_mem _ _ e he
        rw [hl] at hlab; exact absurd hlab (by simp)
    · rcases memE e he with rfl | rfl
      · simp at hlab
      · simp
  · intro n hn hdia
    rcases List.mem_append.1 hn with hn | hn
    · have hz : outCount (decSeqEdges s.previous s.counter) n.id = 0 := by
        refine outCount_zero _ _ (fun e he heq => ?_)
        obtain ⟨-, -, -, hp⟩ := decSeqEdges_mem _ _ e he
        exact hI.prev_nd e.src hp n hn heq.symm hdia
      have hzy : labCount (decSeqEdges s.previous s.counter) n.id "YES" = 0 := by
        refine labCount_zero _ _ _ (fun e he => ?_)
        obtain ⟨hl, -, -, -⟩ := decSeqEdges_mem _ _ e he
        exact Or.inr (by rw [hl]; simp)
      have hzn : labCount (decSeqEdges s.previous s.counter) n.id "NO" = 0 := by
        refine labCount_zero _ _ _ (fun e he => ?_)
        obtain ⟨hl, -, -, -⟩ := decSeqEdges_mem _ _ e he
        exact Or.inr (by rw [hl]; simp)
      have hlt := hI.nodes_lt n hn
      have hy : outCount [Edge.mk s.counter (s.counter + 1) (some "YES") (some "green"),
          Edge.mk s.counter (s.counter + 2) (some "NO") (some "red")] n.id = 0 := by
        rw [outCount_cons, outCount_cons, outCount_nil, if_neg (by dsimp; omega)]
      have hyy : labCount [Edge.mk s.counter (s.counter + 1) (some "YES") (some "green"),
          Edge.mk s.counter (s.counter + 2) (some "NO") (some "red")] n.id "YES" = 0 := by
        rw [labCount_cons, labCount_cons, labCount_nil,
          if_neg (by dsimp; omega), if_neg (by dsimp; omega)]
      have hyn : labCount [Edge.mk s.counter (s.counter + 1) (some "YES") (some "green"),
          Edge.mk s.counter (s.counter + 2) (some "NO") (some "red")] n.id "NO" = 0 := by
        rw [labCount_cons, labCount_cons, labCount_nil,
          if_neg (by dsimp; omega), if_neg (by dsimp; omega)]
      obtain ⟨h1, h2, h3⟩ := hI.dout n hn hdia
      rw [outCount_append, outCount_append, labCount_append, labCount_append,
        labCount_append, labCount_append, hz, hzy, hzn, hy, hyy, hyn]
      omega
    · rcases memN n hn with rfl | rfl | rfl
      · dsimp only [mkNode]
        have hz : outCount s.edges s.counter = 0 :=
          outCount_zero _ _ (fun e he => Nat.ne_of_lt (hI.src_lt e he))
        have hz2 : outCount (decSeqEdges s.previous s.counter) s.counter = 0 := by
          refine outCount_zero _ _ (fun e he => ?_)
          obtain ⟨-, -, -, hp⟩ := decSeqEdges_mem _ _ e he
          exact Nat.ne_of_lt (hI.prev_lt e.src hp)
        have hzy : labCount s.edges s.counter "YES" = 0 :=
          labCount_zero _ _ _ (fun e he => Or.inl (Nat.ne_of_lt (hI.src_lt e he)))
        have hzn : labCount s.edges s.counter "NO" = 0 :=
          labCount_zero _ _ _ (fun e he => Or.inl (Nat.ne_of_lt (hI.src_lt e he)))
        have hzy2 : labCount (decSeqEdges s.previous s.counter) s.counter "YES" = 0 := by
          refine labCount_zero _ _ _ (fun e he => ?_)
          obtain ⟨hl, -, -, -⟩ := decSeqEdges_mem _ _ e he
          exact Or.inr (by rw [hl]; simp)
        have hzn2 : labCount (decSeqEdges s.previous s.counter) s.counter "NO" = 0 := by
          refine labCount_zero _ _ _ (fun e he => ?_)
          obtain ⟨hl, -, -, -⟩ := decSeqEdges_mem _ _ e he
          exact Or.inr (by rw [hl]; simp)
        have hcy : outCount [Edge.mk s.counter (s.counter + 1) (some "YES") (some "green"),
            Edge.mk s.counter (s.counter + 2) (some "NO") (some "red")] s.counter = 2 := by
          rw [outCount_cons, outCount_cons, outCount_nil, if_pos rfl]
        have hcyy : labCount [Edge.mk s.counter (s.counter + 1) (some "YES") (some "green"),
            Edge.mk s.counter (s.counter + 2) (some "NO") (some "red")] s.counter "YES" = 1 := by
          rw [labCount_cons, labCount_cons, labCount_nil,
            if_pos ⟨rfl, rfl⟩, if_neg (by simp)]
        have hcnn : labCount [Edge.mk s.counter (s.counter + 1) (some "YES") (some "green"),
            Edge.mk s.counter (s.counter + 2) (some "NO") (some "red")] s.counter "NO" = 1 := by
          rw [labCount_cons, labCount_cons, labCount_nil,
            if_neg (by simp), if_pos ⟨rfl, rfl⟩]
        rw [outCount_append, outCount_append, labCount_append, labCount_append,
          labCount_append, labCount_append, hz, hz2, hzy, hzn, hzy2, hzn2, hcy, hcyy, hcnn]
        omega
      · simp [mkNode] at hdia
      · simp [mkNode] at hdia
  · intro e he hl n hn hid
    rcases List.mem_append.1 he with he | he
    · rcases List.mem_append.1 he with he | he
      · rcases List.mem_append.1 hn with hn | hn
        · exact hI.btb e he hl n hn hid
        · have := hI.tgt_lt e he
          rcases memN n hn with rfl | rfl | rfl <;> simp [mkNode] at hid <;> omega
      · obtain ⟨hlabel, -, -, -⟩ := decSeqEdges_mem _ _ e he
        rw [hlabel] at hl
        rcases hl with hl | hl <;> exact absurd hl (by simp)
    · rcases memE e he with rfl | rfl
      · rcases List.mem_append.1 hn with hn | hn
        · have := hI.nodes_lt n hn
          dsimp at hid
          omega
        · rcases memN n hn with rfl | rfl | rfl
          · simp [mkNode] at hid
          · simp [mkNode]
          · simp [mkNode] at hid
      · rcases List.mem_append.1 hn with hn | hn
        · have := hI.nodes_lt n hn
          dsimp at hid
          omega
        · rcases memN n hn with rfl | rfl | rfl
          · simp [mkNode] at hid
          · simp [mkNode] at hid
          · simp [mkNode]
  · intro e he hl e2 he2
    rcases List.mem_append.1 he with he | he
    · rcases List.mem_append.1 he with he | he
      · rcases List.mem_append.1 he2 with he2 | he2
        · rcases List.mem_append.1 he2 with he2 | he2
          · exact hI.nno e he hl e2 he2
          · obtain ⟨-, -, -, hp⟩ := decSeqEdges_mem _ _ e2 he2
            exact fun heq => hI.prev_nnt e2.src hp e he hl heq.symm
        · have := hI.tgt_lt e he
          rcases memE e2 he2 with rfl | rfl <;> dsimp <;> omega
      · obtain ⟨hlabel, -, -, -⟩ := decSeqEdges_mem _ _ e he
        rw [hlabel] at hl
        exact absurd hl (by simp)
    · rcases memE e he with rfl | rfl
      · simp at hl
      · dsimp only
        rcases List.mem_append.1 he2 with he2 | he2
        · rcases List.mem_append.1 he2 with he2 | he2
          · have := hI.src_lt e2 he2; omega
          · obtain ⟨-, -, -, hp⟩ := decSeqEdges_mem _ _ e2 he2
            have := hI.prev_lt e2.src hp; omega
        · rcases memE e2 he2 with rfl | rfl <;> dsimp <;> omega
  · intro n hn
    rcases hsn : s.nodes with _ | ⟨h0, t⟩
    · rw [hsn] at hn
      simp only [List.nil_append, List.tail_cons] at hn
      rcases List.mem_cons.1 hn with rfl | hn
      · exact Or.inl ⟨Edge.mk s.counter (s.counter + 1) (some "YES") (some "green"),
          List.mem_append_right _ (List.mem_cons_self _ _), rfl⟩
      · rcases List.mem_singleton.1 hn with rfl
        exact Or.inl ⟨Edge.mk s.counter (s.counter + 2) (some "NO") (some "red"),
          List.mem_append_right _ (List.mem_cons_of_mem _ (List.mem_singleton.2 rfl)), rfl⟩
    · rw [hsn, List.cons_append, List.tail_cons] at hn
      rcases List.mem_append.1 hn with hn | hn
      · have hold := hI.ti n (by rw [hsn]; exact hn)
        rcases hold with ⟨e, he, hte⟩ | hex
        · exact Or.inl ⟨e, List.mem_append_left _ (List.mem_append_left _ he), hte⟩
        · exact Or.inr hex
      · rcases memN n hn with rfl | rfl | rfl
        · rcases hp : s.previous with _ | p
          · exact absurd hsn (by rw [hQ hp]; simp)
          · refine Or.inl ⟨Edge.mk p s.counter none none,
              List.mem_append_left _ (List.mem_append_right _ ?_), rfl⟩
            simp [decSeqEdges, hp]
        · exact Or.inl ⟨Edge.mk s.counter (s.counter + 1) (some "YES") (some "green"),
            List.mem_append_right _ (List.mem_cons_self _ _), rfl⟩
        · exact Or.inl ⟨Edge.mk s.counter (s.counter + 2) (some "NO") (some "red"),
            List.mem_append_right _ (List.mem_cons_of_mem _ (List.mem_singleton.2 rfl)), rfl⟩

theorem inv_skip (colors : ColorScheme) (s : BState) (hI : Inv colors s) :
    Inv colors ⟨s.i + 1, s.counter + 1, s.previous, s.nodes, s.edges⟩ := by
  constructor <;> dsimp only
  · intro n hn; have := hI.nodes_lt n hn; omega
  · intro e he; have := hI.src_lt e he; omega
  · intro e he; have := hI.tgt_lt e he; omega
  · intro p hp; have := hI.prev_lt p hp; omega
  · exact hI.prev_nd
  · exact hI.prev_nnt
  · exact hI.dout
  · exact hI.btb
  · exact hI.nno
  · exact hI.ti

theorem buildStep_preserves (colors : ColorScheme) (steps : List String) (s : BState)
    (hI : Inv colors s) (hQ : Qinv s) (h : s.i < steps.length) :
    Inv colors (buildStep colors steps s) ∧
      (Qinv (buildStep colors steps s) ∨ steps.length ≤ (buildStep colors steps s).i) := by
  unfold buildStep
  rw [dif_pos h]
  dsimp only
  set step := steps.get ⟨s.i, h⟩ with hstep
  by_cases h1 : hasKw startKw step = true
  · rw [if_pos h1]
    have hor : seqGuard step = true ∨ ("ellipse" = "ellipse" ∧ hasKw decisionKw step = true) := by
      cases hdk : hasKw decisionKw step with
      | false => exact Or.inl (by simp [seqGuard, hdk])
      | true => exact Or.inr ⟨rfl, rfl⟩
    obtain ⟨hr1, hr2⟩ := inv_emitSimple colors s step "ellipse" colors.start_end hI hQ
      (by simp) hor
    exact ⟨hr1, Or.inl hr2⟩
  · rw [if_neg h1]
    by_cases h1e : hasKw endKw step = true
    · rw [if_pos h1e]
      have hor : seqGuard step = true ∨ ("ellipse" = "ellipse" ∧ hasKw decisionKw step = true) := by
        cases hdk : hasKw decisionKw step with
        | false => exact Or.inl (by simp [seqGuard, hdk])
        | true => exact Or.inr ⟨rfl, rfl⟩
      obtain ⟨hr1, hr2⟩ := inv_emitSimple colors s step "ellipse" colors.start_end hI hQ
        (by simp) hor
      exact ⟨hr1, Or.inl hr2⟩
    · rw [if_neg h1e]
      by_cases hd : (hasKw decisionKw step && !containsElse step) = true
      · rw [if_pos hd]
        by_cases h2 : s.i + 1 < steps.length
        · rw [dif_pos h2]
          split
          · split
            · exact ⟨inv_decision_yesno colors s step _ _ hI hQ,
                Or.inl (fun hp => by simp at hp)⟩
            · exact ⟨inv_decision_yes colors s step _ hI hQ,
                Or.inl (fun hp => by simp at hp)⟩
          · exact ⟨inv_decision_yes colors s step _ hI hQ,
              Or.inl (fun hp => by simp at hp)⟩
        · rw [dif_neg h2]
          exact ⟨inv_decision_term colors s step hI hQ, Or.inr (by dsimp only; omega)⟩
      · rw [if_neg hd]
        by_cases hce : containsElse step = true
        · rw [if_pos hce]
          exact ⟨inv_skip colors s hI, Or.inl hQ⟩
        · rw [if_neg hce]
          have he2 : containsElse step = false := by
            cases hx : containsElse step
            · rfl
            · exact absurd hx hce
          have hkd : hasKw decisionKw step = false := by
            cases hx : hasKw decisionKw step
            · rfl
            · exact absurd (by rw [hx, he2]; rfl) hd
          obtain ⟨hr1, hr2⟩ := inv_emitSimple colors s step "box" colors.process hI hQ
            (by simp) (Or.inl (by simp [seqGuard, hkd]))
          exact ⟨hr1, Or.inl hr2⟩

theorem buildStep_i_gt (colors : ColorScheme) (steps : List String) (s : BState)
    (h : s.i < steps.length) : s.i < (buildStep colors steps s).i := by
  unfold buildStep
  rw [dif_pos h]
  dsimp only
  split
  · dsimp only [emitSimple]; omega
  split
  · dsimp only [emitSimple]; omega
  split
  · split
    · split
      · split
        · dsimp only; omega
        · dsimp only; omega
      · dsimp only; omega
    · dsimp only; omega
  split
  · dsimp only; omega
  · dsimp only [emitSimple]; omega

theorem buildLoop_of_ge (colors : ColorScheme) (steps : List String) (fuel : Nat)
    (s : BState) (hs : steps.length ≤ s.i) : buildLoop colors steps fuel s = s := by
  cases fuel with
  | zero => rfl
  | succ fuel => simp only [buildLoop]; rw [if_neg (by omega)]

theorem buildLoop_exhausts (colors : ColorScheme) (steps : List String) :
    ∀ (fuel : Nat) (s : BState), steps.length - s.i ≤ fuel →
      steps.length ≤ (buildLoop colors steps fuel s).i := by
  intro fuel
  induction fuel with
  | zero => intro s hs; simp only [buildLoop]; omega
  | succ fuel ih =>
    intro s hs
    simp only [buildLoop]
    by_cases h : s.i < steps.length
    · rw [if_pos h]
      exact ih _ (by have := buildStep_i_gt colors steps s h; omega)
    · rw [if_neg h]; omega

theorem buildLoop_inv (colors : ColorScheme) (steps : List String) :
    ∀ (fuel : Nat) (s : BState), Inv colors s → Qinv s →
      Inv colors (buildLoop colors steps fuel s) := by
  intro fuel
  induction fuel with
  | zero => intro s hI hQ; exact hI
  | succ fuel ih =>
    intro s hI hQ
    simp only [buildLoop]
    by_cases h : s.i < steps.length
    · rw [if_pos h]
      obtain ⟨hI2, hQ2⟩ := buildStep_preserves colors steps s hI hQ h
      rcases hQ2 with hQ2 | hge
      · exact ih _ hI2 hQ2
      · rw [buildLoop_of_ge colors steps fuel _ hge]
        exact hI2
    · rw [if_neg h]; exact hI

theorem create_invariants (txt scheme : String) (g : Graph)
    (h : (create_graphviz_flowchart txt scheme).1 = some g) :
    ∃ s : BState, g.nodes = s.nodes ∧ g.edges = s.edges ∧ Inv (getScheme scheme) s := by
  unfold create_graphviz_flowchart at h
  dsimp only at h
  by_cases he : (tokenize txt).isEmpty
  · rw [if_pos he] at h; simp at h
  · rw [if_neg he] at h
    dsimp only at h
    obtain rfl := (Option.some.inj h).symm
    exact ⟨buildLoop (getScheme scheme) (tokenize txt) (tokenize txt).length initState,
      rfl, rfl,
      buildLoop_inv (getScheme scheme) (tokenize txt) (tokenize txt).length initState
        (inv_init (getScheme scheme)) (fun _ => rfl)⟩

theorem isDecisionStep_parts (step : String) (hd : isDecisionStep step = true) :
    hasKw startKw step = false ∧ hasKw endKw step = false ∧
      hasKw decisionKw step = true ∧ containsElse step = false := by
  simp only [isDecisionStep, Bool.and_eq_true, Bool.not_eq_true'] at hd
  exact ⟨hd.1.1, hd.1.2, hd.2.1, hd.2.2⟩

theorem buildStep_decision_term_eq (colors : ColorScheme) (steps : List String)
    (s : BState) (h : s.i < steps.length)
    (hd : isDecisionStep (steps[s.i]) = true)
    (h2 : ¬ s.i + 1 < steps.length) :
    buildStep colors steps s = ⟨s.i + 1, s.counter + 1, s.previous,
      s.nodes ++ [mkNode s.counter (steps[s.i]) "diamond"
        colors.decision colors.text_color],
      s.edges ++ decSeqEdges s.previous s.counter⟩ := by
  obtain ⟨h1, h1e, hdk, hce⟩ := isDecisionStep_parts _ hd
  unfold buildStep
  rw [dif_pos h]
  dsimp only
  simp only [List.get_eq_getElem]
  rw [if_neg (by simp [h1]), if_neg (by simp [h1e]), if_pos (by simp [hdk, hce]),
    dif_neg h2]

theorem buildStep_decision_yesno_eq (colors : ColorScheme) (steps : List String)
    (s : BState) (h : s.i < steps.length)
    (hd : isDecisionStep (steps[s.i]) = true)
    (h2 : s.i + 1 < steps.length) (j : Nat)
    (hj : elseFind steps (s.i + 1) = some j) (h3 : j + 1 < steps.length) :
    buildStep colors steps s = ⟨s.i + 3, s.counter + 3, some (s.counter + 1),
      s.nodes ++
        [mkNode s.counter (steps[s.i]) "diamond" colors.decision colors.text_color,
         mkNode (s.counter + 1) (steps[s.i + 1]) "box"
           colors.process colors.text_color,
         mkNode (s.counter + 2) (steps[j + 1]) "box"
           colors.process colors.text_color],
      s.edges ++ decSeqEdges s.previous s.counter ++
        [Edge.mk s.counter (s.counter + 1) (some "YES") (some "green"),
         Edge.mk s.counter (s.counter + 2) (some "NO") (some "red")]⟩ := by
  obtain ⟨h1, h1e, hdk, hce⟩ := isDecisionStep_parts _ hd
  unfold buildStep
  rw [dif_pos h]
  dsimp only
  simp only [List.get_eq_getElem]
  rw [if_neg (by simp [h1]), if_neg (by simp [h1e]), if_pos (by simp [hdk, hce]),
    dif_pos h2]
  split
  · next j2 heq =>
    obtain rfl : j2 = j := by rw [hj] at heq; exact (Option.some.inj heq).symm
    rw [dif_pos h3]
  · next heq => rw [hj] at heq; cases heq

theorem buildStep_decision_yes_eq (colors : ColorScheme) (steps : List String)
    (s : BState) (h : s.i < steps.length)
    (hd : isDecisionStep (steps[s.i]) = true)
    (h2 : s.i + 1 < steps.length)
    (hno : elseFind steps (s.i + 1) = none ∨
      ∃ j, elseFind steps (s.i + 1) = some j ∧ ¬ j + 1 < steps.length) :
    buildStep colors steps s = ⟨s.i + 2, s.counter + 2, some (s.counter + 1),
      s.nodes ++
        [mkNode s.counter (steps[s.i]) "diamond" colors.decision colors.text_color,
         mkNode (s.counter + 1) (steps[s.i + 1]) "box"
           colors.process colors.text_color],
      s.edges ++ decSeqEdges s.previous s.counter ++
        [Edge.mk s.counter (s.counter + 1) (some "YES") (some "green")]⟩ := by
  obtain ⟨h1, h1e, hdk, hce⟩ := isDecisionStep_parts _ hd
  unfold buildStep
  rw [dif_pos h]
  dsimp only
  simp only [List.get_eq_getElem]
  rw [if_neg (by simp [h1]), if_neg (by simp [h1e]), if_pos (by simp [hdk, hce]),
    dif_pos h2]
  split
  · next j2 heq =>
    rcases hno with hno | ⟨j, hj, h3⟩
    · rw [hno] at heq; cases heq
    · obtain rfl : j2 = j := by rw [hj] at heq; exact (Option.some.inj heq).symm
      rw [dif_neg h3]
  · rfl

theorem buildStep_else_eq (colors : ColorScheme) (steps : List String)
    (s : BState) (h : s.i < steps.length)
    (hce : containsElse (steps[s.i]) = true)
    (h1 : hasKw startKw (steps[s.i]) = false)
    (h1e : hasKw endKw (steps[s.i]) = false) :
    buildStep colors steps s =
      ⟨s.i + 1, s.counter + 1, s.previous, s.nodes, s.edges⟩ := by
  unfold buildStep
  rw [dif_pos h]
  dsimp only
  simp only [List.get_eq_getElem]
  rw [if_neg (by simp [h1]), if_neg (by simp [h1e]), if_neg (by simp [hce]),
    if_pos hce]

theorem getElem?_some_parts (steps : List String) (i : Nat) (step : String)
    (hstep : steps[i]? = some step) :
    ∃ h : i < steps.length, steps.get ⟨i, h⟩ = step := by
  have h := List.getElem?_eq_some.1 hstep
  obtain ⟨h1, h2⟩ := h
  exact ⟨h1, by rw [List.get_eq_getElem]; exact h2⟩

/-- C1 counterexample: in the graph compiled from the instruction
Start->Check if valid->Yes do X->Else do Y->End, the YES-branch node has id 2
and label Yes do X, the node with id 4 is labeled End, and the unlabeled edge
from node 2 to node 4 is present, so an edge does connect the Yes-do-X node
to an End node and the End ellipse is reachable through the YES branch, not
only through the NO branch. -/
theorem C1_counterexample :
    (create_graphviz_flowchart "Start->Check if valid->Yes do X->Else do Y->End"
      "default").1 = some gC1 ∧
    gC1.nodes.get? 2 = some (mkNode 2 "Yes do X" "box" "#2196F3" "white") ∧
    gC1.nodes.get? 4 = some (mkNode 4 "End" "ellipse" "#4CAF50" "white") ∧
    Edge.mk 2 4 none none ∈ gC1.edges := by decide

/-- C1 (amended): compiling Start->Check if valid->Yes do X->Else do Y->End
yields the graph in which the Decision node Check if valid has a YES edge to
the Yes do X box and a NO edge to a box labeled End (the step after the else
marker); Yes do X becomes the new previous node, the cursor then lands on the
final step End, which is emitted a second time as a StartEnd ellipse with an
unlabeled edge from Yes do X, so an End-labeled node is reachable through
both branches. -/
theorem C1_amended :
    create_graphviz_flowchart "Start->Check if valid->Yes do X->Else do Y->End"
      "default" = (some gC1, none) := by decide

/-- C2 counterexample: on the step sequence of Check valid->A, the builder
processes the Decision step Check valid in one iteration that emits no
NO-branch node, yet the cursor advances from 0 to 2, not by 1 as claimed. -/
theorem C2_counterexample :
    isDecisionStep "Check valid" = true ∧
    tokenize "Check valid->A" = ["Check valid", "A"] ∧
    buildStep defaultColors (tokenize "Check valid->A") initState =
      ⟨2, 2, some 1,
       [mkNode 0 "Check valid" "diamond" "#FF9800" "white",
        mkNode 1 "A" "box" "#2196F3" "white"],
       [Edge.mk 0 1 (some "YES") (some "green")]⟩ := by decide

/-- C2 (amended): for every Decision step reached by the cursor, the iteration
advances the cursor by exactly 3 when a NO-branch node is emitted (the scan
finds an else step with a successor), by exactly 2 when only the YES-branch
node is emitted, and by exactly 1 when the decision is the last step, in which
case only the decision node itself is emitted. -/
theorem C2_amended (colors : ColorScheme) (steps : List String) (s : BState)
    (h : s.i < steps.length) (hd : isDecisionStep steps[s.i] = true) :
    (∀ j : Nat, s.i + 1 < steps.length → elseFind steps (s.i + 1) = some j →
      j + 1 < steps.length →
      (buildStep colors steps s).i = s.i + 3 ∧
      ∃ l, (buildStep colors steps s).edges = s.edges ++ l ∧
        Edge.mk s.counter (s.counter + 2) (some "NO") (some "red") ∈ l) ∧
    (s.i + 1 < steps.length →
      (elseFind steps (s.i + 1) = none ∨
        ∃ j, elseFind steps (s.i + 1) = some j ∧ ¬ j + 1 < steps.length) →
      (buildStep colors steps s).i = s.i + 2 ∧
      ∃ l, (buildStep colors steps s).edges = s.edges ++ l ∧
        ∀ e ∈ l, e.label ≠ some "NO") ∧
    (¬ s.i + 1 < steps.length →
      (buildStep colors steps s).i = s.i + 1 ∧
      (buildStep colors steps s).nodes = s.nodes ++
        [mkNode s.counter steps[s.i] "diamond" colors.decision colors.text_color] ∧
      ∃ l, (buildStep colors steps s).edges = s.edges ++ l ∧
        ∀ e ∈ l, e.label ≠ some "NO") := by
  refine ⟨?_, ?_, ?_⟩
  · intro j h2 hj h3
    rw [buildStep_decision_yesno_eq colors steps s h hd h2 j hj h3]
    refine ⟨rfl, decSeqEdges s.previous s.counter ++
      [Edge.mk s.counter (s.counter + 1) (some "YES") (some "green"),
       Edge.mk s.counter (s.counter + 2) (some "NO") (some "red")], ?_, ?_⟩
    · dsimp only
      rw [List.append_assoc]
    · simp
  · intro h2 hno
    rw [buildStep_decision_yes_eq colors steps s h hd h2 hno]
    refine ⟨rfl, decSeqEdges s.previous s.counter ++
      [Edge.mk s.counter (s.counter + 1) (some "YES") (some "green")], ?_, ?_⟩
    · dsimp only
      rw [List.append_assoc]
    · intro e he
      rcases List.mem_append.1 he with he | he
      · obtain ⟨hl, -, -, -⟩ := decSeqEdges_mem _ _ e he
        rw [hl]; simp
      · rcases List.mem_singleton.1 he with rfl
        simp
  · intro h2
    rw [buildStep_decision_term_eq colors steps s h hd h2]
    refine ⟨rfl, rfl, decSeqEdges s.previous s.counter, rfl, ?_⟩
    intro e he
    obtain ⟨hl, -, -, -⟩ := decSeqEdges_mem _ _ e he
    rw [hl]; simp

/-- C2 witness: the first amended case evaluated on Check valid->A->x else->B,
where the NO-branch node is emitted and the cursor advances by 3. -/
theorem C2_amended_witness :
    (buildStep defaultColors (tokenize "Check valid->A->x else->B") initState).i =
      initState.i + 3 ∧
    ∃ l, (buildStep defaultColors (tokenize "Check valid->A->x else->B")
        initState).edges = initState.edges ++ l ∧
      Edge.mk initState.counter (initState.counter + 2) (some "NO") (some "red") ∈ l :=
  (C2_amended defaultColors (tokenize "Check valid->A->x else->B") initState
    (by decide) (by decide)).1 2 (by decide) (by decide) (by decide)

/-- C4 counterexample: Check valid and Check ready are consecutive steps both
classified Decision, yet the compiled graph holds a single diamond: the second
decision step is consumed as the YES-branch box of the first and no Decision
node is emitted for it. -/
theorem C4_counterexample :
    isDecisionStep "Check valid" = true ∧
    isDecisionStep "Check ready" = true ∧
    tokenize "Check valid->Check ready" = ["Check valid", "Check ready"] ∧
    (create_graphviz_flowchart "Check valid->Check ready" "default").1 =
      some ⟨"white",
        [mkNode 0 "Check valid" "diamond" "#FF9800" "white",
         mkNode 1 "Check ready" "box" "#2196F3" "white"],
        [Edge.mk 0 1 (some "YES") (some "green")]⟩ := by decide

/-- C4 (amended): when the cursor reaches a Decision step whose immediate
successor is also classified Decision, the successor is consumed as the
YES-branch node: it is emitted as a box with the process fill and a YES edge
from the decision diamond, and the cursor moves past it, so it is never
processed as an independent Decision node. -/
theorem C4_amended (colors : ColorScheme) (steps : List String) (s : BState)
    (h : s.i < steps.length) (h2 : s.i + 1 < steps.length)
    (hd1 : isDecisionStep steps[s.i] = true)
    (hd2 : isDecisionStep steps[s.i + 1] = true) :
    ∃ rest : List Node,
      (buildStep colors steps s).nodes =
        s.nodes ++
          mkNode s.counter steps[s.i] "diamond" colors.decision colors.text_color ::
          mkNode (s.counter + 1) steps[s.i + 1] "box" colors.process colors.text_color ::
          rest ∧
      Edge.mk s.counter (s.counter + 1) (some "YES") (some "green") ∈
        (buildStep colors steps s).edges ∧
      s.i + 2 ≤ (buildStep colors steps s).i := by
  cases hef : elseFind steps (s.i + 1) with
  | none =>
    rw [buildStep_decision_yes_eq colors steps s h hd1 h2 (Or.inl hef)]
    exact ⟨[], rfl, by simp, by dsimp only; omega⟩
  | some j =>
    by_cases h3 : j + 1 < steps.length
    · rw [buildStep_decision_yesno_eq colors steps s h hd1 h2 j hef h3]
      exact ⟨[mkNode (s.counter + 2) steps[j + 1] "box" colors.process colors.text_color],
        rfl, by simp, by dsimp only; omega⟩
    · rw [buildStep_decision_yes_eq colors steps s h hd1 h2 (Or.inr ⟨j, hef, h3⟩)]
      exact ⟨[], rfl, by simp, by dsimp only; omega⟩

/-- C4 witness: the amended statement evaluated on Check valid->Check ready. -/
theorem C4_amended_witness :
    ∃ rest : List Node,
      (buildStep defaultColors (tokenize "Check valid->Check ready") initState).nodes =
        initState.nodes ++
          mkNode 0 "Check valid" "diamond" "#FF9800" "white" ::
          mkNode 1 "Check ready" "box" "#2196F3" "white" :: rest ∧
      Edge.mk 0 1 (some "YES") (some "green") ∈
        (buildStep defaultColors (tokenize "Check valid->Check ready") initState).edges ∧
      initState.i + 2 ≤
        (buildStep defaultColors (tokenize "Check valid->Check ready") initState).i :=
  C4_amended defaultColors (tokenize "Check valid->Check ready") initState
    (by decide) (by decide) (by decide) (by decide)

/-- C5 counterexample: the step Else finish contains else, yet when the cursor
reaches it the compiler emits a standalone visible node for it, because the
StartEnd keyword branch is checked before the else branch. -/
theorem C5_counterexample :
    containsElse "Else finish" = true ∧
    tokenize "Else finish" = ["Else finish"] ∧
    (create_graphviz_flowchart "Else finish" "default").1 =
      some ⟨"white", [mkNode 0 "Else finish" "ellipse" "#4CAF50" "white"], []⟩ := by
  decide

/-- C5 (amended): a step that contains else and no StartEnd keyword is never
emitted as a standalone node when reached by the cursor: the iteration leaves
nodes, edges and previous node unchanged and only advances the cursor and the
node counter; a step containing else together with a StartEnd keyword is
emitted as a StartEnd node instead. -/
theorem C5_amended (colors : ColorScheme) (steps : List String) (s : BState)
    (h : s.i < steps.length) (hce : containsElse steps[s.i] = true)
    (h1 : hasKw startKw steps[s.i] = false)
    (h1e : hasKw endKw steps[s.i] = false) :
    buildStep colors steps s =
      ⟨s.i + 1, s.counter + 1, s.previous, s.nodes, s.edges⟩ :=
  buildStep_else_eq colors steps s h hce h1 h1e

/-- C5 witness: the amended statement evaluated on x else y->B at cursor 0. -/
theorem C5_amended_witness :
    buildStep defaultColors (tokenize "x else y->B") initState =
      ⟨initState.i + 1, initState.counter + 1, initState.previous,
        initState.nodes, initState.edges⟩ :=
  C5_amended defaultColors (tokenize "x else y->B") initState
    (by decide) (by decide) (by decide) (by decide)

/-- C7: compilation fails with the empty-input error No steps found exactly
when tokenization yields zero steps, and otherwise produces a graph with no
error. -/
theorem C7_holds (txt scheme : String) :
    (tokenize txt = [] →
      create_graphviz_flowchart txt scheme = (none, some "No steps found")) ∧
    (tokenize txt ≠ [] →
      (create_graphviz_flowchart txt scheme).2 = none ∧
      ∃ g : Graph, (create_graphviz_flowchart txt scheme).1 = some g) := by
  unfold create_graphviz_flowchart
  dsimp only
  constructor
  · intro he
    rw [if_pos (by simp [he])]
  · intro hne
    rw [if_neg (by simpa [List.isEmpty_iff] using hne)]
    exact ⟨rfl, _, rfl⟩

/-- C7 witness: the only-delimiters input tokenizes to zero steps, fails with
the empty-input error, and produces no graph. -/
theorem C7_witness :
    tokenize "-> -> ->" = [] ∧
    create_graphviz_flowchart "-> -> ->" "default" = (none, some "No steps found") :=
  ⟨by decide, (C7_holds "-> -> ->" "default").1 (by decide)⟩

set_option maxRecDepth 8192 in
/-- C8 counterexample: for the only-delimiters input the compiler reports the
empty-input error, but the combined pipeline does not abort: it discards the
error and returns the non-empty markup fallback with tag html. -/
theorem C8_counterexample :
    (create_graphviz_flowchart "-> -> ->" "default").2 = some "No steps found" ∧
    create_flowchart_display none "-> -> ->" "default" =
      (create_html_fallback "-> -> ->" "default", "html") ∧
    create_html_fallback "-> -> ->" "default" ≠ "" := by decide

/-- C8 (amended): when tokenization yields zero steps the compiler returns no
graph together with the error text No steps found, but create_flowchart_display
never consults the error component: it falls through to the markup fallback
renderer and returns its output with tag html instead of aborting with a
failure. -/
theorem C8_amended (txt scheme : String) (render : Option (Graph → String))
    (he : tokenize txt = []) :
    create_graphviz_flowchart txt scheme = (none, some "No steps found") ∧
    create_flowchart_display render txt scheme =
      (create_html_fallback txt scheme, "html") := by
  have h1 : create_graphviz_flowchart txt scheme = (none, some "No steps found") := by
    unfold create_graphviz_flowchart
    dsimp only
    rw [if_pos (by simp [he])]
  refine ⟨h1, ?_⟩
  unfold create_flowchart_display
  rw [h1]

/-- C8 witness: the amended statement evaluated on the only-delimiters input
with an absent renderer. -/
theorem C8_amended_witness :
    create_graphviz_flowchart "-> -> ->" "neon" = (none, some "No steps found") ∧
    create_flowchart_display none "-> -> ->" "neon" =
      (create_html_fallback "-> -> ->" "neon", "html") :=
  C8_amended "-> -> ->" "neon" none (by decide)

/-- C9: a colour scheme name other than default, professional, dark, colorful
makes the compiler, the markup fallback, and the combined display produce
output identical to the default scheme. -/
theorem C9_holds (txt scheme : String)
    (h : scheme ∉ ["default", "professional", "dark", "colorful"]) :
    create_graphviz_flowchart txt scheme = create_graphviz_flowchart txt "default" ∧
    create_html_fallback txt scheme = create_html_fallback txt "default" ∧
    ∀ render : Option (Graph → String),
      create_flowchart_display render txt scheme =
        create_flowchart_display render txt "default" := by
  simp only [List.mem_cons, List.mem_singleton, not_or] at h
  obtain ⟨h1, h2, h3, h4, -⟩ := h
  have b1 : (scheme == "default") = false := beq_eq_false_iff_ne.2 h1
  have b2 : (scheme == "professional") = false := beq_eq_false_iff_ne.2 h2
  have b3 : (scheme == "dark") = false := beq_eq_false_iff_ne.2 h3
  have b4 : (scheme == "colorful") = false := beq_eq_false_iff_ne.2 h4
  have hs : getScheme scheme = defaultColors := by
    simp [getScheme, color_schemes, List.lookup, b1, b2, b3, b4]
  have hf : fbGetScheme scheme = fallbackDefault := by
    simp [fbGetScheme, fallback_color_schemes, List.lookup, b1, b2, b3, b4]
  have e1 : create_graphviz_flowchart txt scheme =
      create_graphviz_flowchart txt "default" := by
    unfold create_graphviz_flowchart
    dsimp only
    rw [hs, show getScheme "default" = defaultColors from rfl]
  have e2 : create_html_fallback txt scheme = create_html_fallback txt "default" := by
    unfold create_html_fallback
    dsimp only
    rw [hf, show fbGetScheme "default" = fallbackDefault from rfl]
  refine ⟨e1, e2, fun render => ?_⟩
  unfold create_flowchart_display
  rw [e1, e2]

/-- C9 witness: the unrecognized scheme neon evaluated on Start->End gives the
same compiler output, fallback output and display output as default. -/
theorem C9_witness :
    create_graphviz_flowchart "Start->End" "neon" =
      create_graphviz_flowchart "Start->End" "default" ∧
    create_html_fallback "Start->End" "neon" =
      create_html_fallback "Start->End" "default" ∧
    create_flowchart_display none "Start->End" "neon" =
      create_flowchart_display none "Start->End" "default" := by
  obtain ⟨e1, e2, e3⟩ := C9_holds "Start->End" "neon" (by decide)
  exact ⟨e1, e2, e3 none⟩

/-- C3 counterexample: compiling A->End if ok emits the StartEnd node
End if ok as the second node, but because its text holds the decision
keyword if, the line-223 guard suppresses the sequential edge, so the graph
has no edges at all and the second emitted node has no incoming edge. -/
theorem C3_counterexample :
    hasKw endKw "End if ok" = true ∧
    hasKw decisionKw "End if ok" = true ∧
    (create_graphviz_flowchart "A->End if ok" "default").1 =
      some ⟨"white",
        [mkNode 0 "A" "box" "#2196F3" "white",
         mkNode 1 "End if ok" "ellipse" "#4CAF50" "white"], []⟩ := by decide

/-- C3 (amended): in every compiled graph, every node except the first emitted
one has an incoming edge unless it is a StartEnd ellipse whose label holds a
decision keyword; and for a StartEnd or Process emission with an existing
previous node, the unlabeled sequential edge is emitted exactly when the step
holds no decision keyword. -/
theorem C3_amended :
    (∀ txt scheme : String, ∀ g : Graph,
      (create_graphviz_flowchart txt scheme).1 = some g →
      ∀ n ∈ g.nodes.tail,
        (∃ e ∈ g.edges, e.tgt = n.id) ∨
          (n.shape = "ellipse" ∧ hasKw decisionKw n.label = true)) ∧
    (∀ (colors : ColorScheme) (s : BState) (step shape fill : String) (p : Nat),
      s.previous = some p →
      ((emitSimple colors s step shape fill).edges =
          s.edges ++ [Edge.mk p s.counter none none] ↔
        hasKw decisionKw step = false)) := by
  constructor
  · intro txt scheme g h n hn
    obtain ⟨s, hns, hes, hI⟩ := create_invariants txt scheme g h
    rw [hns] at hn
    rw [hes]
    exact hI.ti n hn
  · intro colors s step shape fill p hp
    by_cases hk : hasKw decisionKw step = true
    · simp only [emitSimple, seqEdges, hp]
      rw [if_neg (by simp [seqGuard, hk])]
      constructor
      · intro heq
        exfalso
        have hlen := congrArg List.length heq
        simp at hlen
      · intro hk2
        rw [hk] at hk2
        cases hk2
    · have hk2 : hasKw decisionKw step = false := by
        cases hx : hasKw decisionKw step
        · rfl
        · exact absurd hx hk
      simp only [emitSimple, seqEdges, hp]
      rw [if_pos (by simp [seqGuard, hk2])]
      simp [hk2]

/-- C3 witness: both amended parts evaluated on concrete inputs: the second
node of the graph of Start->Do x has an incoming edge, and a Process emission
with a previous node and no decision keyword emits the sequential edge. -/
theorem C3_amended_witness :
    ((∃ e ∈ gC3w.edges, e.tgt = (mkNode 1 "Do x" "box" "#2196F3" "white").id) ∨
      ((mkNode 1 "Do x" "box" "#2196F3" "white").shape = "ellipse" ∧
        hasKw decisionKw (mkNode 1 "Do x" "box" "#2196F3" "white").label = true)) ∧
    ((emitSimple defaultColors (BState.mk 1 1 (some 0) [] []) "Do x" "box"
        "#2196F3").edges = [] ++ [Edge.mk 0 1 none none] ↔
      hasKw decisionKw "Do x" = false) :=
  ⟨C3_amended.1 "Start->Do x" "default" gC3w (by decide)
      (mkNode 1 "Do x" "box" "#2196F3" "white") (by decide),
   C3_amended.2 defaultColors (BState.mk 1 1 (some 0) [] []) "Do x" "box" "#2196F3"
      0 rfl⟩

/-- C6: in every compiled graph every Decision diamond has at most two
outgoing edges, at most one labeled YES and at most one labeled NO; and a
Decision step that is the last step produces a decision node with zero
outgoing edges while the run ends normally. -/
theorem C6_holds :
    (∀ txt scheme : String, ∀ g : Graph,
      (create_graphviz_flowchart txt scheme).1 = some g →
      ∀ n ∈ g.nodes, n.shape = "diamond" →
        outCount g.edges n.id ≤ 2 ∧ labCount g.edges n.id "YES" ≤ 1 ∧
          labCount g.edges n.id "NO" ≤ 1) ∧
    (∀ (colors : ColorScheme) (steps : List String) (s : BState) (fuel : Nat),
      ∀ h : s.i < steps.length, s.i + 1 = steps.length →
      isDecisionStep steps[s.i] = true →
      (∀ e ∈ s.edges, e.src ≠ s.counter) →
      (∀ p, s.previous = some p → p ≠ s.counter) →
      outCount (buildLoop colors steps fuel (buildStep colors steps s)).edges
        s.counter = 0) := by
  constructor
  · intro txt scheme g h n hn hdia
    obtain ⟨s, hns, hes, hI⟩ := create_invariants txt scheme g h
    rw [hns] at hn
    rw [hes]
    exact hI.dout n hn hdia
  · intro colors steps s fuel h hlast hd hsrc hprev
    rw [buildStep_decision_term_eq colors steps s h hd (by omega)]
    rw [buildLoop_of_ge colors steps fuel _ (by dsimp only; omega)]
    dsimp only
    rw [outCount_append, outCount_zero s.edges _ hsrc,
      outCount_zero (decSeqEdges s.previous s.counter) _ (fun e he => ?_)]
    obtain ⟨-, -, -, hp⟩ := decSeqEdges_mem _ _ e he
    exact hprev e.src hp

/-- C6 witness: the diamond of the five-step example has in-range out-degree
and label counts, and the terminal decision of the single-step input
Check valid ends the run with a decision node without outgoing edges. -/
theorem C6_witness :
    (outCount gC1.edges 1 ≤ 2 ∧ labCount gC1.edges 1 "YES" ≤ 1 ∧
      labCount gC1.edges 1 "NO" ≤ 1) ∧
    outCount (buildLoop defaultColors (tokenize "Check valid") 1
      (buildStep defaultColors (tokenize "Check valid") initState)).edges 0 = 0 :=
  ⟨C6_holds.1 "Start->Check if valid->Yes do X->Else do Y->End" "default" gC1
      (by decide) (mkNode 1 "Check if valid" "diamond" "#FF9800" "white")
      (by decide) rfl,
   C6_holds.2 defaultColors (tokenize "Check valid") initState 1 (by decide)
      (by decide) (by decide) (by intro e he; exact absurd he (List.not_mem_nil e))
      (by intro p hp; cases hp)⟩

/-- C10: in every compiled graph, every node receiving a YES or NO edge is a
box filled with the process colour of the resolved scheme, whatever keywords
its label holds, and a node receiving a NO edge has no outgoing edge. -/
theorem C10_holds (txt scheme : String) (g : Graph)
    (h : (create_graphviz_flowchart txt scheme).1 = some g) :
    (∀ e ∈ g.edges, (e.label = some "YES" ∨ e.label = some "NO") →
      ∀ n ∈ g.nodes, n.id = e.tgt →
        n.shape = "box" ∧ n.fillcolor = (getScheme scheme).process) ∧
    (∀ e ∈ g.edges, e.label = some "NO" → outCount g.edges e.tgt = 0) := by
  obtain ⟨s, hns, hes, hI⟩ := create_invariants txt scheme g h
  rw [hns, hes]
  constructor
  · exact hI.btb
  · intro e he hl
    exact outCount_zero _ _ (fun e2 he2 => hI.nno e he hl e2 he2)

/-- C10 witness: in the five-step example the NO-branch node (id 3, labeled
End although end is a StartEnd keyword) is a box with the default process
fill and has no outgoing edge. -/
theorem C10_witness :
    ((mkNode 3 "End" "box" "#2196F3" "white").shape = "box" ∧
      (mkNode 3 "End" "box" "#2196F3" "white").fillcolor =
        (getScheme "default").process) ∧
    outCount gC1.edges 3 = 0 := by
  obtain ⟨hb, hn⟩ := C10_holds "Start->Check if valid->Yes do X->Else do Y->End"
    "default" gC1 (by decide)
  exact ⟨hb (Edge.mk 1 3 (some "NO") (some "red")) (by decide) (Or.inr rfl)
      (mkNode 3 "End" "box" "#2196F3" "white") (by decide) rfl,
    hn (Edge.mk 1 3 (some "NO") (some "red")) (by decide) rfl⟩

end FlowchartSpec
